import Mathlib

/-!
# Page-enhancement script `js/main.js`

A shallow embedding of the five event handlers of `js/main.js` and of the
browser and jQuery operations they call, followed by the properties of the
handlers.

Conventions of the embedding.

* A handler is a function from the part of the page it reads and writes to
  the page after the handler has run, together with what it reported
  (an alert, a thrown `TypeError`).
* A JavaScript string is a Lean `String`.  Every code point that
  `String.prototype.trim` strips lies in the Basic Multilingual Plane and is
  one UTF-16 code unit, so trimming by code point and by code unit agree.
* A `classList` (`DOMTokenList`) is the ordered list of its tokens.
* Bounding-box coordinates and the viewport height are exact rationals.
-/

namespace Homepage

/-! ## Strings: `String.prototype.trim` -/

/-- ECMAScript `WhiteSpace` (TAB, VT, FF, ZWNBSP and the code points of
general category Zs) and `LineTerminator` (LF, CR, LS, PS): the code points
stripped by `String.prototype.trim`. -/
def isTrimChar (c : Char) : Bool :=
  let n := c.toNat
  n == 0x0009 || n == 0x000B || n == 0x000C || n == 0xFEFF ||
  n == 0x0020 || n == 0x00A0 || n == 0x1680 ||
  (0x2000 ≤ n && n ≤ 0x200A) ||
  n == 0x202F || n == 0x205F || n == 0x3000 ||
  n == 0x000A || n == 0x000D || n == 0x2028 || n == 0x2029

/-- Strip the trimmable characters from the front of a character list. -/
def trimStartChars (cs : List Char) : List Char :=
  cs.dropWhile isTrimChar

/-- Strip the trimmable characters from the back of a character list. -/
def trimEndChars (cs : List Char) : List Char :=
  (cs.reverse.dropWhile isTrimChar).reverse

/-- The method `String.prototype.trim`: the string without its leading and
trailing white space and line terminators. -/
def jsTrim (s : String) : String :=
  ⟨trimEndChars (trimStartChars s.data)⟩

/-- JavaScript truthiness of a string: only the empty string is falsy. -/
def truthy (s : String) : Bool :=
  !s.data.isEmpty

/-! ## DOM nodes -/

/-- A DOM node, as far as the script can tell nodes apart: a text node with
its data, or an element with its local name, the tokens of its `class`
attribute and its child nodes. -/
inductive Node where
  | text (data : String) : Node
  | element (localName : String) (classList : List String) (childNodes : List Node) : Node

/-- The setter of `textContent` on an element (line 29): the children are
replaced by one text node holding `s`, or by nothing when `s` is empty. -/
def setTextContent (s : String) : List Node :=
  if s.data.isEmpty then [] else [Node.text s]

mutual
/-- The concatenated data of the text nodes among the nodes and their
descendants, in document order. -/
def textContentAmong : List Node → String
  | [] => ""
  | n :: rest => textContentAt n ++ textContentAmong rest
/-- The getter of `textContent`: the data of a text node, the concatenated
data of the text nodes below an element. -/
def textContentAt : Node → String
  | Node.text d => d
  | Node.element _ _ kids => textContentAmong kids
end

/-! ## List append (`#add-project-btn`, lines 18-32) -/

/-- The part of the page the add-project handler touches: the value of
`#new-project-input` and the child nodes of `#projects-list`. -/
structure ProjectsPage where
  inputValue : String
  projectsList : List Node

/-- The outcome of one run of the add-project handler: the page afterwards and
the messages passed to `alert`, in order. -/
structure AddOutcome where
  page : ProjectsPage
  alerts : List String

/-- The click handler of `#add-project-btn` (lines 18-32). -/
def addProjectClick (p : ProjectsPage) : AddOutcome :=
  let text := jsTrim p.inputValue
  if !truthy text then
    { page := p, alerts := ["请输入项目名称！"] }
  else
    let li := Node.element "li" ["list-group-item"] (setTextContent text)
    { page := { inputValue := "", projectsList := p.projectsList ++ [li] },
      alerts := [] }

/-! ## `DOMTokenList` -/

/-- The method `DOMTokenList.contains`. -/
def tokenContains (tokens : List String) (t : String) : Bool :=
  tokens.contains t

/-- The method `DOMTokenList.add` with one token: append it unless present. -/
def tokenAdd (tokens : List String) (t : String) : List String :=
  if tokenContains tokens t then tokens else tokens ++ [t]

/-- Removal of a token from the token set. -/
def tokenRemove (tokens : List String) (t : String) : List String :=
  tokens.filter (fun x => x != t)

/-- The method `DOMTokenList.toggle` without the force argument: remove the
token when present, append it otherwise. -/
def tokenToggle (tokens : List String) (t : String) : List String :=
  if tokenContains tokens t then tokenRemove tokens t else tokens ++ [t]

/-- Replacement within an ordered set: the first occurrence of the item or of
its replacement becomes the replacement, every later occurrence of either is
dropped. -/
def orderedSetReplace (item replacement : String) : List String → List String
  | [] => []
  | x :: rest =>
    if x == item || x == replacement then
      replacement :: rest.filter (fun y => !(y == item || y == replacement))
    else
      x :: orderedSetReplace item replacement rest

/-- The method `DOMTokenList.replace`: nothing happens unless the old token is
present. -/
def tokenReplace (tokens : List String) (oldToken newToken : String) : List String :=
  if tokenContains tokens oldToken then orderedSetReplace oldToken newToken tokens
  else tokens

/-! ## `querySelector` with a type selector -/

mutual
/-- First element with the given local name among the nodes and their
descendants, in document order. -/
def querySelectorAmong (name : String) : List Node → Option Node
  | [] => none
  | n :: rest =>
    match querySelectorAt name n with
    | some hit => some hit
    | none => querySelectorAmong name rest
/-- First element with the given local name in the subtree rooted at a node,
the root included, in document order. -/
def querySelectorAt (name : String) : Node → Option Node
  | Node.text _ => none
  | Node.element ln cl kids =>
    if ln = name then some (Node.element ln cl kids) else querySelectorAmong name kids
end

mutual
/-- Number of elements with the given local name among the nodes and their
descendants. -/
def countAmong (name : String) : List Node → Nat
  | [] => 0
  | n :: rest => countAt name n + countAmong name rest
/-- Number of elements with the given local name in the subtree rooted at a
node, the root included. -/
def countAt (name : String) : Node → Nat
  | Node.text _ => 0
  | Node.element ln _ kids => (if ln = name then 1 else 0) + countAmong name kids
end

/-- The node after `classList.replace` has run on it. -/
def Node.replaceClass (oldToken newToken : String) : Node → Node
  | Node.text d => Node.text d
  | Node.element ln cl kids => Node.element ln (tokenReplace cl oldToken newToken) kids

/-! ## Theme toggle (`#toggle-dark-mode`, lines 1-15) -/

/-- The part of the page the theme handler touches: the class list of
`document.body` and the child nodes of the button `#toggle-dark-mode`. -/
structure ThemePage where
  bodyClassList : List String
  buttonNodes : List Node

/-- How a handler run ended: normally, or by an uncaught exception; either way
with the page as the run left it. -/
inductive Completion (σ : Type) where
  | normal (after : σ) : Completion σ
  | abrupt (error : String) (after : σ) : Completion σ

/-- The page as the run left it. -/
def Completion.after {σ : Type} : Completion σ → σ
  | Completion.normal s => s
  | Completion.abrupt _ s => s

/-- Whether the run ended by an uncaught exception. -/
def Completion.threw {σ : Type} : Completion σ → Bool
  | Completion.normal _ => false
  | Completion.abrupt _ _ => true

/-- The nodes the fragment parser yields for the string assigned to
`innerHTML` on line 10: the sun icon followed by the day-mode label. -/
def sunMarkup : List Node :=
  [Node.element "i" ["bi", "bi-sun", "me-1"] [], Node.text "日间模式"]

/-- The nodes the fragment parser yields for the string assigned to
`innerHTML` on line 13: the moon icon followed by the night-mode label. -/
def moonMarkup : List Node :=
  [Node.element "i" ["bi", "bi-moon", "me-1"] [], Node.text "夜间模式"]

/-- The theme flag: whether the body carries the class `dark-mode`. -/
def ThemePage.isDark (p : ThemePage) : Bool :=
  tokenContains p.bodyClassList "dark-mode"

/-- The click handler of `#toggle-dark-mode` (lines 5-15).  The body class is
toggled first; `icon.classList` then throws a `TypeError` when
`querySelector` found no `i` element.  The icon altered by
`classList.replace` is the old child, which the assignment to `innerHTML`
discards together with every other old child. -/
def toggleDarkModeClick (p : ThemePage) : Completion ThemePage :=
  let body := tokenToggle p.bodyClassList "dark-mode"
  match querySelectorAmong "i" p.buttonNodes with
  | none =>
    Completion.abrupt "TypeError" { bodyClassList := body, buttonNodes := p.buttonNodes }
  | some icon =>
    if tokenContains body "dark-mode" then
      let _discarded := icon.replaceClass "bi-moon" "bi-sun"
      Completion.normal { bodyClassList := body, buttonNodes := sunMarkup }
    else
      let _discarded := icon.replaceClass "bi-sun" "bi-moon"
      Completion.normal { bodyClassList := body, buttonNodes := moonMarkup }

/-- The page after a number of successive clicks on the theme button. -/
def afterThemeClicks : Nat → ThemePage → ThemePage
  | 0, p => p
  | n + 1, p => afterThemeClicks n (toggleDarkModeClick p).after

/-! ## Scroll reveal (`window` scroll handler, lines 34-45) -/

/-- The two fields of the result of `getBoundingClientRect` that the handler
reads. -/
structure DOMRect where
  top : ℚ
  bottom : ℚ

/-- What one scroll event finds: the viewport height `window.innerHeight` and,
for the element at each position of the document, the bounding box that
`getBoundingClientRect` returns when the handler reaches it. -/
structure ScrollEvent where
  innerHeight : ℚ
  rectOf : Nat → DOMRect

/-- The body of the `forEach` callback (lines 37-40) on the class list of one
element. -/
def revealIfInView (innerHeight : ℚ) (rect : DOMRect) (classList : List String) :
    List String :=
  if rect.top < innerHeight ∧ rect.bottom ≥ 0 then tokenAdd classList "visible"
  else classList

/-- One turn of the `forEach` on line 36 for the element at document position
`k`, given by its class list: the callback runs when the element matches
`.transform-hover`, and the element is left alone otherwise. -/
def scrollElement (ev : ScrollEvent) (k : Nat) (classList : List String) : List String :=
  if tokenContains classList "transform-hover" then
    revealIfInView ev.innerHeight (ev.rectOf k) classList
  else classList

/-- The scroll handler on the elements from document position `k` on. -/
def scrollFrom (ev : ScrollEvent) : Nat → List (List String) → List (List String)
  | _, [] => []
  | k, cl :: rest => scrollElement ev k cl :: scrollFrom ev (k + 1) rest

/-- The scroll handler (lines 35-42) on the elements of the document, in
document order. -/
def scrollHandler (ev : ScrollEvent) (doc : List (List String)) : List (List String) :=
  scrollFrom ev 0 doc

/-- The document after a sequence of scroll events, the first of which may be
the one dispatched at load on line 45. -/
def afterScrolls : List ScrollEvent → List (List String) → List (List String)
  | [], doc => doc
  | ev :: evs, doc => afterScrolls evs (scrollHandler ev doc)

/-! ## Item dismiss (`#skills-list li`, lines 50-52) -/

/-- A node below `#skills-list`: a text node, or an element with the identity
of the node, its local name, whether it carries the click handler bound on
line 50, and its child nodes.  An `li` may lie at any depth, also inside
another `li`, as the descendant selector `#skills-list li` allows. -/
inductive SkillNode where
  | text (data : String) : SkillNode
  | element (nodeId : Nat) (localName : String) (dismissBound : Bool)
      (childNodes : List SkillNode) : SkillNode

mutual
/-- The identities of the elements among the nodes and their descendants, in
document order. -/
def idsAmong : List SkillNode → List Nat
  | [] => []
  | n :: rest => idsAt n ++ idsAmong rest
/-- The identities of the elements in the subtree rooted at a node, the root
included, in document order. -/
def idsAt : SkillNode → List Nat
  | SkillNode.text _ => []
  | SkillNode.element id _ _ kids => id :: idsAmong kids
end

mutual
/-- The entries of the list: the `li` elements among the nodes and their
descendants, in document order, as `$('#skills-list li')` selects them. -/
def liAmong : List SkillNode → List SkillNode
  | [] => []
  | n :: rest => liAt n ++ liAmong rest
/-- The `li` elements in the subtree rooted at a node, the root included, in
document order. -/
def liAt : SkillNode → List SkillNode
  | SkillNode.text _ => []
  | SkillNode.element id ln b kids =>
    if ln = "li" then SkillNode.element id ln b kids :: liAmong kids else liAmong kids
end

mutual
/-- Line 50 on the nodes below `#skills-list`: see `skillsReady`. -/
def bindAmong : List SkillNode → List SkillNode
  | [] => []
  | n :: rest => bindAt n :: bindAmong rest
/-- Line 50 on one subtree: every `li` in it gets the click handler. -/
def bindAt : SkillNode → SkillNode
  | SkillNode.text d => SkillNode.text d
  | SkillNode.element id ln _ kids =>
    SkillNode.element id ln (decide (ln = "li")) (bindAmong kids)
end

/-- Line 50 at document-ready: the click handler is bound to every `li` below
`#skills-list` and to nothing else.  No node carries the handler before, so
the flags of the argument play no part. -/
def skillsReady (kids : List SkillNode) : List SkillNode :=
  bindAmong kids

mutual
/-- A click on the element `target` somewhere among the nodes, with every
fade-out run to completion: the nodes afterwards, or `none` when the target
is not among the nodes and their descendants. -/
def clickAmong (target : Nat) : List SkillNode → Option (List SkillNode)
  | [] => none
  | n :: rest =>
    match clickAt target n with
    | some left => some (left ++ rest)
    | none =>
      match clickAmong target rest with
      | some rest2 => some (n :: rest2)
      | none => none
/-- A click on the element `target` in the subtree rooted at a node: what is
left of the subtree, or `none` when the target is not in it.  The event
reaches the target and then bubbles through its ancestors; each element on
the way that carries the handler of lines 50-52 fades out and is then removed
by `$(this).remove()` together with all it contains. -/
def clickAt (target : Nat) : SkillNode → Option (List SkillNode)
  | SkillNode.text _ => none
  | SkillNode.element id ln b kids =>
    if id = target then
      if b then some [] else some [SkillNode.element id ln b kids]
    else
      match clickAmong target kids with
      | some kids2 => if b then some [] else some [SkillNode.element id ln b kids2]
      | none => none
end

/-- The nodes below `#skills-list` after a click on the element `target`
(lines 50-52); a click outside the list leaves it alone. -/
def skillClick (target : Nat) (kids : List SkillNode) : List SkillNode :=
  match clickAmong target kids with
  | some kids2 => kids2
  | none => kids

mutual
/-- Whether no `li` among the nodes and their descendants lies inside another
`li`. -/
def flatAmong : List SkillNode → Bool
  | [] => true
  | n :: rest => flatAt n && flatAmong rest
/-- Whether no `li` of the subtree lies inside another `li` of it. -/
def flatAt : SkillNode → Bool
  | SkillNode.text _ => true
  | SkillNode.element _ ln _ kids =>
    (if ln = "li" then (liAmong kids).isEmpty else true) && flatAmong kids
end

mutual
/-- Whether only `li` elements carry the click handler, as after line 50. -/
def onlyLiBoundAmong : List SkillNode → Bool
  | [] => true
  | n :: rest => onlyLiBoundAt n && onlyLiBoundAmong rest
/-- Whether only `li` elements of the subtree carry the click handler. -/
def onlyLiBoundAt : SkillNode → Bool
  | SkillNode.text _ => true
  | SkillNode.element _ ln b kids =>
    (if b then decide (ln = "li") else true) && onlyLiBoundAmong kids
end

mutual
/-- Whether every `li` among the nodes and their descendants carries the click
handler. -/
def allLiBoundAmong : List SkillNode → Bool
  | [] => true
  | n :: rest => allLiBoundAt n && allLiBoundAmong rest
/-- Whether every `li` of the subtree carries the click handler. -/
def allLiBoundAt : SkillNode → Bool
  | SkillNode.text _ => true
  | SkillNode.element _ ln b kids =>
    (if ln = "li" then b else true) && allLiBoundAmong kids
end

/-! ## Section collapse (`#bio-title`, lines 54-61) -/

/-- The bio section: whether `#bio-content` is hidden, and the class lists of
the `i` elements below `#bio-title`, in document order. -/
structure BioSection where
  contentHidden : Bool
  titleIcons : List (List String)
deriving DecidableEq

/-- The jQuery method `toggleClass` for one class name: `removeClass` when
`hasClass`, else `addClass`. -/
def jqToggleOne (classList : List String) (name : String) : List String :=
  if tokenContains classList name then tokenRemove classList name
  else tokenAdd classList name

/-- The jQuery method `toggleClass` with a space-separated list of class
names, each toggled in turn. -/
def jqToggleClass (names : List String) (classList : List String) : List String :=
  names.foldl jqToggleOne classList

/-- Line 56 at document-ready: the chevron is appended to the header, after
everything the header already holds. -/
def bioReady (s : BioSection) : BioSection :=
  { s with titleIcons := s.titleIcons ++ [["bi", "bi-chevron-down"]] }

/-- The click handler of `#bio-title` (lines 58-61) with the slide run to
completion: `slideToggle` hides a shown block and shows a hidden one, and
`toggleClass` runs on every `i` element below the header. -/
def bioTitleClick (s : BioSection) : BioSection :=
  { contentHidden := !s.contentHidden,
    titleIcons := s.titleIcons.map (jqToggleClass ["bi-chevron-down", "bi-chevron-up"]) }

/-- The bio section after a number of successive clicks on its header. -/
def afterBioClicks : Nat → BioSection → BioSection
  | 0, s => s
  | n + 1, s => afterBioClicks n (bioTitleClick s)

/-- The class list of the chevron, the last `i` element below the header. -/
def BioSection.chevron (s : BioSection) : Option (List String) :=
  s.titleIcons.getLast?

/-- Whether the chevron carries the given class. -/
def BioSection.chevronHas (s : BioSection) (name : String) : Bool :=
  match s.chevron with
  | some cl => tokenContains cl name
  | none => false
/-! ## Properties of `trim` -/

theorem dropWhile_trim_eq_nil (cs : List Char) :
    cs.dropWhile isTrimChar = [] ↔ ∀ c ∈ cs, isTrimChar c = true := by
  induction cs with
  | nil => simp
  | cons a t ih =>
    by_cases ha : isTrimChar a = true
    · simp [List.dropWhile_cons, ha, ih]
    · simp [List.dropWhile_cons, ha]

theorem trimEndChars_eq_nil (cs : List Char) :
    trimEndChars cs = [] ↔ ∀ c ∈ cs, isTrimChar c = true := by
  unfold trimEndChars
  rw [List.reverse_eq_nil_iff, dropWhile_trim_eq_nil]
  simp

theorem trimStartChars_all (cs : List Char)
    (h : ∀ c ∈ trimStartChars cs, isTrimChar c = true) : trimStartChars cs = [] := by
  unfold trimStartChars at *
  induction cs with
  | nil => simp
  | cons a t ih =>
    by_cases ha : isTrimChar a = true
    · simp only [List.dropWhile_cons, ha, if_true] at h ⊢
      exact ih h
    · simp only [List.dropWhile_cons, ha] at h
      exact absurd (h a (by simp)) ha

theorem trimChars_eq_nil (cs : List Char) :
    trimEndChars (trimStartChars cs) = [] ↔ ∀ c ∈ cs, isTrimChar c = true := by
  rw [trimEndChars_eq_nil]
  constructor
  · intro h
    exact (dropWhile_trim_eq_nil cs).1 (trimStartChars_all cs h)
  · intro h
    have : trimStartChars cs = [] := (dropWhile_trim_eq_nil cs).2 h
    rw [this]; simp

theorem jsTrim_eq_empty (s : String) :
    jsTrim s = "" ↔ ∀ c ∈ s.data, isTrimChar c = true := by
  rw [← trimChars_eq_nil]
  unfold jsTrim
  constructor
  · intro h
    have := congrArg String.data h
    simpa using this
  · intro h
    rw [h]

theorem truthy_iff (s : String) : truthy s = true ↔ s ≠ "" := by
  unfold truthy
  cases s with
  | mk d =>
    cases d with
    | nil => simp
    | cons a t =>
      simp
      intro h
      have := congrArg String.data h
      simp at this

theorem setTextContent_of_ne (s : String) (h : s ≠ "") : setTextContent s = [Node.text s] := by
  have := (truthy_iff s).2 h
  unfold truthy at this
  unfold setTextContent
  simp at this
  simp [this]

/-- Claim C1.  When the trimmed value of the input field is not empty, the
add-project click handler appends one entry to the projects list: the list is
the old list followed by a new `li`, so its length grows by one, its last
entry is the new `li`, whose text is the trimmed input, every old entry keeps
its position and content, the input field is left empty, and no alert is
raised. -/
theorem addProjectClick_appends (p : ProjectsPage) (h : jsTrim p.inputValue ≠ "") :
    (addProjectClick p).page.projectsList =
        p.projectsList ++
          [Node.element "li" ["list-group-item"] [Node.text (jsTrim p.inputValue)]] ∧
      (addProjectClick p).page.projectsList.length = p.projectsList.length + 1 ∧
      (∃ li, (addProjectClick p).page.projectsList.getLast? = some li ∧
        textContentAt li = jsTrim p.inputValue) ∧
      (∀ i, i < p.projectsList.length →
        (addProjectClick p).page.projectsList[i]? = p.projectsList[i]?) ∧
      (addProjectClick p).page.inputValue = "" ∧
      (addProjectClick p).alerts = [] := by
  have ht : truthy (jsTrim p.inputValue) = true := (truthy_iff _).2 h
  have hs := setTextContent_of_ne _ h
  have e : addProjectClick p =
      { page := { inputValue := "", projectsList := p.projectsList ++
          [Node.element "li" ["list-group-item"] [Node.text (jsTrim p.inputValue)]] },
        alerts := [] } := by
    unfold addProjectClick
    simp [ht, hs]
  rw [e]
  refine ⟨rfl, by simp,
    ⟨Node.element "li" ["list-group-item"] [Node.text (jsTrim p.inputValue)], by simp, ?_⟩,
    ?_, rfl, rfl⟩
  · show jsTrim p.inputValue ++ "" = jsTrim p.inputValue
    exact String.append_empty _
  · intro i hi
    simp [List.getElem?_append_left hi]

theorem addProjectClick_appends_witness :
    jsTrim "Alpha" = "Alpha" ∧
    (∃ li, (addProjectClick ⟨"Alpha", [Node.text "x"]⟩).page.projectsList.getLast? = some li ∧
      textContentAt li = jsTrim "Alpha") ∧
    (addProjectClick ⟨"Alpha", [Node.text "x"]⟩).page.projectsList =
      [Node.text "x", Node.element "li" ["list-group-item"] [Node.text "Alpha"]] ∧
    (addProjectClick ⟨"Alpha", [Node.text "x"]⟩).page.inputValue = "" :=
  ⟨by decide,
   (addProjectClick_appends ⟨"Alpha", [Node.text "x"]⟩ (by decide)).2.2.1,
   (addProjectClick_appends ⟨"Alpha", [Node.text "x"]⟩ (by decide)).1,
   (addProjectClick_appends ⟨"Alpha", [Node.text "x"]⟩ (by decide)).2.2.2.2.1⟩

/-- Claim C2.  The add-project click handler raises its alert exactly when the
value of the input field is empty after trimming, which is the case exactly
when every character of the value is white space or a line terminator; it
then raises the one alert and leaves the page, projects list and input value
alike, as it was. -/
theorem addProjectClick_alert_iff (p : ProjectsPage) :
    ((addProjectClick p).alerts ≠ [] ↔ jsTrim p.inputValue = "") ∧
      (jsTrim p.inputValue = "" ↔ ∀ c ∈ p.inputValue.data, isTrimChar c = true) ∧
      (jsTrim p.inputValue = "" →
        (addProjectClick p).alerts = ["请输入项目名称！"] ∧ (addProjectClick p).page = p) := by
  refine ⟨?_, jsTrim_eq_empty _, ?_⟩
  · by_cases h : jsTrim p.inputValue = ""
    · have ht : truthy (jsTrim p.inputValue) = false := by
        rw [h]; rfl
      have e : (addProjectClick p).alerts = ["请输入项目名称！"] := by
        simp [addProjectClick, ht]
      simp [e, h]
    · have ht : truthy (jsTrim p.inputValue) = true := (truthy_iff _).2 h
      have e : (addProjectClick p).alerts = [] := by
        simp [addProjectClick, ht]
      simp [e, h]
  · intro h
    have ht : truthy (jsTrim p.inputValue) = false := by
      rw [h]; rfl
    simp [addProjectClick, ht]

theorem addProjectClick_alert_iff_witness :
    jsTrim "   " = "" ∧
    (addProjectClick ⟨"   ", [Node.text "x"]⟩).alerts = ["请输入项目名称！"] ∧
    (addProjectClick ⟨"   ", [Node.text "x"]⟩).page = ⟨"   ", [Node.text "x"]⟩ :=
  ⟨by decide, (addProjectClick_alert_iff ⟨"   ", [Node.text "x"]⟩).2.2 (by decide)⟩

/-! ## Properties of token lists -/

theorem tokenContains_iff (l : List String) (t : String) :
    tokenContains l t = true ↔ t ∈ l := by
  simp [tokenContains]

theorem mem_tokenRemove (l : List String) (t c : String) :
    c ∈ tokenRemove l t ↔ c ∈ l ∧ c ≠ t := by
  simp [tokenRemove, List.mem_filter]

theorem mem_tokenAdd (l : List String) (t c : String) :
    c ∈ tokenAdd l t ↔ c ∈ l ∨ c = t := by
  unfold tokenAdd
  by_cases h : tokenContains l t = true
  · have ht := (tokenContains_iff l t).1 h
    rw [if_pos h]
    constructor
    · intro hc; exact Or.inl hc
    · rintro (hc | hc)
      · exact hc
      · rw [hc]; exact ht
  · rw [if_neg h]
    simp

theorem mem_tokenToggle (l : List String) (t c : String) :
    c ∈ tokenToggle l t ↔ (c ∈ l ∧ c ≠ t) ∨ (c = t ∧ t ∉ l) := by
  unfold tokenToggle
  by_cases h : tokenContains l t = true
  · have ht := (tokenContains_iff l t).1 h
    rw [if_pos h]
    simp only [mem_tokenRemove]
    constructor
    · intro hc; exact Or.inl hc
    · rintro (hc | hc)
      · exact hc
      · exact absurd ht hc.2
  · have ht : t ∉ l := fun hm => h ((tokenContains_iff l t).2 hm)
    rw [if_neg h]
    simp only [List.mem_append, List.mem_singleton]
    constructor
    · rintro (hc | hc)
      · exact Or.inl ⟨hc, fun e => ht (e ▸ hc)⟩
      · exact Or.inr ⟨hc, ht⟩
    · rintro (hc | hc)
      · exact Or.inl hc.1
      · exact Or.inr hc.1

theorem tokenContains_tokenToggle (l : List String) (t : String) :
    tokenContains (tokenToggle l t) t = !tokenContains l t := by
  by_cases h : tokenContains l t = true
  · have ht := (tokenContains_iff l t).1 h
    have : ¬ t ∈ tokenToggle l t := by
      rw [mem_tokenToggle]
      rintro (hc | hc)
      · exact hc.2 rfl
      · exact hc.2 ht
    have h2 : tokenContains (tokenToggle l t) t = false := by
      cases e : tokenContains (tokenToggle l t) t
      · rfl
      · exact absurd ((tokenContains_iff _ _).1 e) this
    rw [h2, h]; rfl
  · have ht : t ∉ l := fun hm => h ((tokenContains_iff l t).2 hm)
    have : t ∈ tokenToggle l t := by
      rw [mem_tokenToggle]; exact Or.inr ⟨rfl, ht⟩
    have h2 := (tokenContains_iff _ _).2 this
    have h3 : tokenContains l t = false := by
      cases e : tokenContains l t
      · rfl
      · exact absurd e h
    rw [h2, h3]; rfl

theorem tokenToggle_twice_of_absent (l : List String) (t : String) (h : t ∉ l) :
    tokenToggle (tokenToggle l t) t = l := by
  have h1 : tokenContains l t = false := by
    cases e : tokenContains l t
    · rfl
    · exact absurd ((tokenContains_iff _ _).1 e) h
  have h2 : tokenToggle l t = l ++ [t] := by
    simp [tokenToggle, h1]
  have h3 : tokenContains (l ++ [t]) t = true := by
    simp [tokenContains]
  rw [h2]
  unfold tokenToggle
  rw [h3]
  simp only [if_true, tokenRemove, List.filter_append]
  have : l.filter (fun x => x != t) = l := by
    rw [List.filter_eq_self]
    intro a ha
    simp only [bne_iff_ne, ne_eq]
    exact fun e => h (e ▸ ha)
  rw [this]
  simp

/-! ## Properties of `querySelector` -/

mutual
theorem querySelectorAmong_isSome (name : String) :
    ∀ l : List Node, (querySelectorAmong name l).isSome = true ↔ 0 < countAmong name l
  | [] => by simp [querySelectorAmong, countAmong]
  | n :: rest => by
    have h1 := querySelectorAt_isSome name n
    have h2 := querySelectorAmong_isSome name rest
    unfold querySelectorAmong countAmong
    cases e : querySelectorAt name n with
    | some hit =>
      rw [e] at h1
      have := h1.1 rfl
      simp
      omega
    | none =>
      rw [e] at h1
      have h0 : countAt name n = 0 := by
        by_contra hne
        have := h1.2 (Nat.pos_of_ne_zero hne)
        simp at this
      simp only [h0, Nat.zero_add]
      exact h2
theorem querySelectorAt_isSome (name : String) :
    ∀ n : Node, (querySelectorAt name n).isSome = true ↔ 0 < countAt name n
  | Node.text _ => by simp [querySelectorAt, countAt]
  | Node.element ln cl kids => by
    have h2 := querySelectorAmong_isSome name kids
    unfold querySelectorAt countAt
    by_cases h : ln = name
    · simp [h]
    · simp only [h, if_false, Nat.zero_add]
      exact h2
end

theorem sunMarkup_ne_moonMarkup : sunMarkup ≠ moonMarkup := by
  intro h
  simp [sunMarkup, moonMarkup] at h


/-! ## Theme toggle -/

theorem toggleDarkModeClick_of_icon (p : ThemePage) (h : 0 < countAmong "i" p.buttonNodes) :
    toggleDarkModeClick p =
      Completion.normal
        { bodyClassList := tokenToggle p.bodyClassList "dark-mode",
          buttonNodes :=
            if tokenContains (tokenToggle p.bodyClassList "dark-mode") "dark-mode" then sunMarkup
            else moonMarkup } := by
  have hs := (querySelectorAmong_isSome "i" p.buttonNodes).2 h
  unfold toggleDarkModeClick
  cases e : querySelectorAmong "i" p.buttonNodes with
  | none => rw [e] at hs; simp at hs
  | some icon =>
    by_cases hd : tokenContains (tokenToggle p.bodyClassList "dark-mode") "dark-mode" = true
    · simp [hd]
    · simp [hd]

theorem toggleDarkModeClick_of_no_icon (p : ThemePage) (h : countAmong "i" p.buttonNodes = 0) :
    toggleDarkModeClick p =
      Completion.abrupt "TypeError"
        { bodyClassList := tokenToggle p.bodyClassList "dark-mode",
          buttonNodes := p.buttonNodes } := by
  unfold toggleDarkModeClick
  cases e : querySelectorAmong "i" p.buttonNodes with
  | none => rfl
  | some icon =>
    have hs := (querySelectorAmong_isSome "i" p.buttonNodes).1 (by rw [e]; rfl)
    omega

theorem toggleDarkModeClick_body (p : ThemePage) :
    (toggleDarkModeClick p).after.bodyClassList = tokenToggle p.bodyClassList "dark-mode" := by
  by_cases h : 0 < countAmong "i" p.buttonNodes
  · rw [toggleDarkModeClick_of_icon p h]; rfl
  · rw [toggleDarkModeClick_of_no_icon p (by omega)]; rfl

theorem toggleDarkModeClick_isDark (p : ThemePage) :
    (toggleDarkModeClick p).after.isDark = !p.isDark := by
  unfold ThemePage.isDark
  rw [toggleDarkModeClick_body, tokenContains_tokenToggle]

theorem toggleDarkModeClick_button (p : ThemePage) (h : 0 < countAmong "i" p.buttonNodes) :
    (toggleDarkModeClick p).after.buttonNodes =
      if (toggleDarkModeClick p).after.isDark = true then sunMarkup else moonMarkup := by
  unfold ThemePage.isDark
  rw [toggleDarkModeClick_body]
  rw [toggleDarkModeClick_of_icon p h]
  rfl

theorem count_icon_after (p : ThemePage) (h : 0 < countAmong "i" p.buttonNodes) :
    countAmong "i" (toggleDarkModeClick p).after.buttonNodes = 1 := by
  rw [toggleDarkModeClick_button p h]
  split
  · decide
  · decide

theorem count_icon_afterThemeClicks (n : Nat) :
    ∀ p : ThemePage, 0 < countAmong "i" p.buttonNodes →
      0 < countAmong "i" (afterThemeClicks n p).buttonNodes := by
  induction n with
  | zero => intro p h; exact h
  | succ k ih =>
    intro p h
    unfold afterThemeClicks
    apply ih
    rw [count_icon_after p h]
    exact Nat.one_pos

/-- Claim C4 as stated fails.  On a button that holds no `i` element the click
inverts the theme flag and then throws, so the body is dark afterwards while
the button still holds its old content, not the sun icon with the label
日间模式. -/
theorem toggleDarkModeClick_no_icon_counterexample :
    countAmong "i" [Node.text "切换主题"] = 0 ∧
    (toggleDarkModeClick ⟨["home"], [Node.text "切换主题"]⟩).threw = true ∧
    (toggleDarkModeClick ⟨["home"], [Node.text "切换主题"]⟩).after.isDark = true ∧
    (toggleDarkModeClick ⟨["home"], [Node.text "切换主题"]⟩).after.buttonNodes ≠ sunMarkup := by
  refine ⟨by decide, by decide, by decide, ?_⟩
  intro h
  have e : (toggleDarkModeClick ⟨["home"], [Node.text "切换主题"]⟩).after.buttonNodes =
      [Node.text "切换主题"] := by rfl
  rw [e] at h
  simp [sunMarkup] at h

/-- Claim C4 as amended.  One click on the theme button inverts the theme flag,
whether or not the run completes; on a button that holds an `i` element the
run completes, and the button then holds the sun icon with the label 日间模式
exactly when the body is now dark, the moon icon with the label 夜间模式
exactly when it is now light. -/
theorem toggleDarkModeClick_matches_new_state (p : ThemePage) :
    (toggleDarkModeClick p).after.isDark = !p.isDark ∧
      (0 < countAmong "i" p.buttonNodes →
        (toggleDarkModeClick p).threw = false ∧
        ((toggleDarkModeClick p).after.buttonNodes = sunMarkup ↔
          (toggleDarkModeClick p).after.isDark = true) ∧
        ((toggleDarkModeClick p).after.buttonNodes = moonMarkup ↔
          (toggleDarkModeClick p).after.isDark = false)) := by
  refine ⟨toggleDarkModeClick_isDark p, fun h => ⟨?_, ?_, ?_⟩⟩
  · rw [toggleDarkModeClick_of_icon p h]; rfl
  · rw [toggleDarkModeClick_button p h]
    cases hd : (toggleDarkModeClick p).after.isDark
    · constructor
      · intro e
        have e2 : moonMarkup = sunMarkup := e
        exact absurd e2.symm sunMarkup_ne_moonMarkup
      · intro e; exact absurd e (by decide)
    · exact ⟨fun _ => rfl, fun _ => rfl⟩
  · rw [toggleDarkModeClick_button p h]
    cases hd : (toggleDarkModeClick p).after.isDark
    · exact ⟨fun _ => rfl, fun _ => rfl⟩
    · constructor
      · intro e
        have e2 : sunMarkup = moonMarkup := e
        exact absurd e2 sunMarkup_ne_moonMarkup
      · intro e; exact absurd e (by decide)

theorem toggleDarkModeClick_matches_new_state_witness :
    0 < countAmong "i" moonMarkup ∧
    (toggleDarkModeClick ⟨[], moonMarkup⟩).threw = false ∧
    ((toggleDarkModeClick ⟨[], moonMarkup⟩).after.buttonNodes = sunMarkup ↔
      (toggleDarkModeClick ⟨[], moonMarkup⟩).after.isDark = true) ∧
    ((toggleDarkModeClick ⟨[], moonMarkup⟩).after.buttonNodes = moonMarkup ↔
      (toggleDarkModeClick ⟨[], moonMarkup⟩).after.isDark = false) :=
  ⟨by decide, (toggleDarkModeClick_matches_new_state ⟨[], moonMarkup⟩).2 (by decide)⟩

/-- Claim C10.  Presence of an `i` element in the theme button is kept by the click
handler: on a button that holds one the run completes and leaves exactly one,
and no later click, however many came before, throws; on a button that holds
none the run throws with the body class already toggled and the button
content as it was. -/
theorem toggleDarkModeClick_icon_invariant (p : ThemePage) :
    (0 < countAmong "i" p.buttonNodes →
        (toggleDarkModeClick p).threw = false ∧
        countAmong "i" (toggleDarkModeClick p).after.buttonNodes = 1 ∧
        ∀ n, (toggleDarkModeClick (afterThemeClicks n p)).threw = false) ∧
      (countAmong "i" p.buttonNodes = 0 →
        (toggleDarkModeClick p).threw = true ∧
        (toggleDarkModeClick p).after.bodyClassList =
          tokenToggle p.bodyClassList "dark-mode" ∧
        (toggleDarkModeClick p).after.isDark = !p.isDark ∧
        (toggleDarkModeClick p).after.buttonNodes = p.buttonNodes) := by
  constructor
  · intro h
    refine ⟨?_, count_icon_after p h, fun n => ?_⟩
    · rw [toggleDarkModeClick_of_icon p h]; rfl
    · rw [toggleDarkModeClick_of_icon _ (count_icon_afterThemeClicks n p h)]; rfl
  · intro h
    refine ⟨?_, toggleDarkModeClick_body p, toggleDarkModeClick_isDark p, ?_⟩
    · rw [toggleDarkModeClick_of_no_icon p h]; rfl
    · rw [toggleDarkModeClick_of_no_icon p h]; rfl

theorem toggleDarkModeClick_icon_invariant_witness :
    (0 < countAmong "i" moonMarkup ∧
      countAmong "i" (toggleDarkModeClick ⟨[], moonMarkup⟩).after.buttonNodes = 1 ∧
      (toggleDarkModeClick (afterThemeClicks 3 ⟨[], moonMarkup⟩)).threw = false) ∧
    (countAmong "i" [Node.text "夜间模式"] = 0 ∧
      (toggleDarkModeClick ⟨[], [Node.text "夜间模式"]⟩).threw = true ∧
      (toggleDarkModeClick ⟨[], [Node.text "夜间模式"]⟩).after.bodyClassList = ["dark-mode"] ∧
      (toggleDarkModeClick ⟨[], [Node.text "夜间模式"]⟩).after.buttonNodes =
        [Node.text "夜间模式"]) :=
  ⟨⟨by decide,
    ((toggleDarkModeClick_icon_invariant ⟨[], moonMarkup⟩).1 (by decide)).2.1,
    ((toggleDarkModeClick_icon_invariant ⟨[], moonMarkup⟩).1 (by decide)).2.2 3⟩,
   ⟨by decide,
    ((toggleDarkModeClick_icon_invariant ⟨[], [Node.text "夜间模式"]⟩).2 (by decide)).1,
    ((toggleDarkModeClick_icon_invariant ⟨[], [Node.text "夜间模式"]⟩).2 (by decide)).2.1,
    ((toggleDarkModeClick_icon_invariant ⟨[], [Node.text "夜间模式"]⟩).2 (by decide)).2.2.2⟩⟩

theorem mem_tokenToggle_twice (l : List String) (t c : String) :
    c ∈ tokenToggle (tokenToggle l t) t ↔ c ∈ l := by
  rw [mem_tokenToggle, mem_tokenToggle, mem_tokenToggle]
  by_cases hc : c = t
  · subst hc
    by_cases hl : c ∈ l
    · simp [hl]
    · simp [hl]
  · simp [hc]

/-- Claim C3 as stated fails.  Two clicks leave the content that the handler
writes, not the content the button had: a moon icon without the class `me-1`
comes back with it, and a dark body under a moon button ends under a sun
button.  The token `dark-mode` also comes back at the end of the body class
list, not at its old place. -/
theorem toggleDarkModeClick_twice_counterexample :
    (0 < countAmong "i" [Node.element "i" ["bi", "bi-moon"] [], Node.text "夜间模式"] ∧
      (toggleDarkModeClick (toggleDarkModeClick
          ⟨[], [Node.element "i" ["bi", "bi-moon"] [], Node.text "夜间模式"]⟩).after).after.buttonNodes
        ≠ [Node.element "i" ["bi", "bi-moon"] [], Node.text "夜间模式"]) ∧
    (0 < countAmong "i" moonMarkup ∧
      (toggleDarkModeClick (toggleDarkModeClick
          ⟨["dark-mode"], moonMarkup⟩).after).after.buttonNodes ≠ moonMarkup) ∧
    (0 < countAmong "i" sunMarkup ∧
      (toggleDarkModeClick (toggleDarkModeClick
          ⟨["dark-mode", "home"], sunMarkup⟩).after).after.bodyClassList
        ≠ ["dark-mode", "home"]) := by
  refine ⟨⟨by decide, ?_⟩, ⟨by decide, ?_⟩, ⟨by decide, ?_⟩⟩
  · intro h
    have e : (toggleDarkModeClick (toggleDarkModeClick
        ⟨[], [Node.element "i" ["bi", "bi-moon"] [], Node.text "夜间模式"]⟩).after).after.buttonNodes
        = moonMarkup := by rfl
    rw [e] at h
    simp [moonMarkup] at h
  · intro h
    have e : (toggleDarkModeClick (toggleDarkModeClick
        ⟨["dark-mode"], moonMarkup⟩).after).after.buttonNodes = sunMarkup := by rfl
    rw [e] at h
    exact sunMarkup_ne_moonMarkup h
  · decide

/-- Claim C3 as amended.  From a page whose button holds the content the handler
writes for the current theme, two clicks both complete, bring the button
content back, and bring the body back to the same set of classes; when the
body started without `dark-mode` its class list comes back token for token. -/
theorem toggleDarkModeClick_twice (p : ThemePage)
    (h : p.buttonNodes = if p.isDark = true then sunMarkup else moonMarkup) :
    (toggleDarkModeClick p).threw = false ∧
      (toggleDarkModeClick (toggleDarkModeClick p).after).threw = false ∧
      (toggleDarkModeClick (toggleDarkModeClick p).after).after.buttonNodes = p.buttonNodes ∧
      (∀ c, c ∈ (toggleDarkModeClick (toggleDarkModeClick p).after).after.bodyClassList ↔
        c ∈ p.bodyClassList) ∧
      (p.isDark = false →
        (toggleDarkModeClick (toggleDarkModeClick p).after).after.bodyClassList =
          p.bodyClassList) := by
  have h0 : 0 < countAmong "i" p.buttonNodes := by
    rw [h]; split <;> decide
  have h1 : 0 < countAmong "i" (toggleDarkModeClick p).after.buttonNodes := by
    rw [count_icon_after p h0]; exact Nat.one_pos
  have hb : (toggleDarkModeClick (toggleDarkModeClick p).after).after.bodyClassList =
      tokenToggle (tokenToggle p.bodyClassList "dark-mode") "dark-mode" := by
    rw [toggleDarkModeClick_body, toggleDarkModeClick_body]
  refine ⟨?_, ?_, ?_, ?_, ?_⟩
  · rw [toggleDarkModeClick_of_icon p h0]; rfl
  · rw [toggleDarkModeClick_of_icon _ h1]; rfl
  · rw [toggleDarkModeClick_button _ h1, toggleDarkModeClick_isDark,
      toggleDarkModeClick_isDark, Bool.not_not, h]
  · intro c
    rw [hb]
    exact mem_tokenToggle_twice _ _ _
  · intro hd
    rw [hb]
    apply tokenToggle_twice_of_absent
    intro hm
    have := (tokenContains_iff _ _).2 hm
    unfold ThemePage.isDark at hd
    rw [hd] at this
    exact absurd this (by decide)

theorem toggleDarkModeClick_twice_witness :
    (toggleDarkModeClick (toggleDarkModeClick ⟨["home"], moonMarkup⟩).after).after.buttonNodes
        = moonMarkup ∧
    (toggleDarkModeClick (toggleDarkModeClick ⟨["home"], moonMarkup⟩).after).after.bodyClassList
        = ["home"] :=
  ⟨(toggleDarkModeClick_twice ⟨["home"], moonMarkup⟩ (by rfl)).2.2.1,
   (toggleDarkModeClick_twice ⟨["home"], moonMarkup⟩ (by rfl)).2.2.2.2 (by decide)⟩

/-! ## Scroll reveal -/

theorem scrollFrom_getElem? (ev : ScrollEvent) :
    ∀ (doc : List (List String)) (j i : Nat),
      (scrollFrom ev j doc)[i]? = (doc[i]?).map (scrollElement ev (j + i))
  | [], j, i => by simp [scrollFrom]
  | cl :: rest, j, 0 => by simp [scrollFrom]
  | cl :: rest, j, i + 1 => by
    simp only [scrollFrom, List.getElem?_cons_succ]
    rw [scrollFrom_getElem? ev rest (j + 1) i]
    have e : j + 1 + i = j + (i + 1) := by omega
    rw [e]

theorem scrollHandler_getElem? (ev : ScrollEvent) (doc : List (List String)) (k : Nat) :
    (scrollHandler ev doc)[k]? = (doc[k]?).map (scrollElement ev k) := by
  unfold scrollHandler
  rw [scrollFrom_getElem?, Nat.zero_add]

theorem afterScrolls_getElem? (k : Nat) :
    ∀ (evs : List ScrollEvent) (doc : List (List String)),
      (afterScrolls evs doc)[k]? =
        (doc[k]?).map (fun cl => evs.foldl (fun c ev => scrollElement ev k c) cl)
  | [], doc => by simp [afterScrolls]
  | ev :: evs, doc => by
    simp only [afterScrolls, List.foldl_cons]
    rw [afterScrolls_getElem? k evs, scrollHandler_getElem?]
    cases doc[k]? <;> simp

theorem mem_scrollElement (ev : ScrollEvent) (k : Nat) (cl : List String) (c : String) :
    c ∈ scrollElement ev k cl ↔
      c ∈ cl ∨ (c = "visible" ∧ "transform-hover" ∈ cl ∧
        (ev.rectOf k).top < ev.innerHeight ∧ (ev.rectOf k).bottom ≥ 0) := by
  unfold scrollElement revealIfInView
  by_cases hm : tokenContains cl "transform-hover" = true
  · have hm2 := (tokenContains_iff _ _).1 hm
    rw [if_pos hm]
    by_cases hv : (ev.rectOf k).top < ev.innerHeight ∧ (ev.rectOf k).bottom ≥ 0
    · rw [if_pos hv, mem_tokenAdd]
      constructor
      · rintro (h | h)
        · exact Or.inl h
        · exact Or.inr ⟨h, hm2, hv⟩
      · rintro (h | h)
        · exact Or.inl h
        · exact Or.inr h.1
    · rw [if_neg hv]
      constructor
      · intro h; exact Or.inl h
      · rintro (h | h)
        · exact h
        · exact absurd h.2.2 hv
  · have hm2 : "transform-hover" ∉ cl := fun h => hm ((tokenContains_iff _ _).2 h)
    rw [if_neg hm]
    constructor
    · intro h; exact Or.inl h
    · rintro (h | h)
      · exact h
      · exact absurd h.2.1 hm2

theorem mem_foldl_scrollElement (k : Nat) (c : String) :
    ∀ (evs : List ScrollEvent) (cl : List String),
      c ∈ evs.foldl (fun a ev => scrollElement ev k a) cl ↔
        c ∈ cl ∨ (c = "visible" ∧ "transform-hover" ∈ cl ∧
          ∃ ev ∈ evs, (ev.rectOf k).top < ev.innerHeight ∧ (ev.rectOf k).bottom ≥ 0)
  | [], cl => by simp
  | ev :: evs, cl => by
    rw [List.foldl_cons, mem_foldl_scrollElement k c evs, mem_scrollElement,
      mem_scrollElement]
    constructor
    · rintro ((h | h) | ⟨h1, h2, e, he, hin⟩)
      · exact Or.inl h
      · exact Or.inr ⟨h.1, h.2.1, ev, List.mem_cons_self _ _, h.2.2⟩
      · rcases h2 with h2 | h2
        · exact Or.inr ⟨h1, h2, e, List.mem_cons_of_mem _ he, hin⟩
        · exact absurd h2.1 (by decide)
    · rintro (h | ⟨h1, h2, e, he, hin⟩)
      · exact Or.inl (Or.inl h)
      · rcases List.mem_cons.1 he with he | he
        · subst he
          exact Or.inl (Or.inr ⟨h1, h2, hin⟩)
        · exact Or.inr ⟨h1, Or.inl h2, e, he, hin⟩

/-- Claim C5 as stated fails.  An unmarked `.transform-hover` element whose box
ends exactly at the top edge of the viewport (top -40, bottom 0, viewport
height 600) is marked by one run of the handler, although its bottom edge is
not below the viewport top. -/
theorem scrollHandler_top_edge_counterexample :
    "transform-hover" ∈ ["transform-hover"] ∧ "visible" ∉ ["transform-hover"] ∧
    scrollHandler ⟨600, fun _ => ⟨-40, 0⟩⟩ [["transform-hover"]] =
      [["transform-hover", "visible"]] ∧
    ¬ ((-40 : ℚ) < 600 ∧ (0 : ℚ) > 0) := by
  refine ⟨by decide, by decide, by decide, by decide⟩

/-- Claim C5 as amended.  For an unmarked `.transform-hover` element at document
position `k`, one run of the scroll handler marks it exactly when its top edge
is above the viewport bottom and its bottom edge is at or below the viewport
top (`top < innerHeight` and `bottom ≥ 0`); after a sequence of runs it is
marked exactly when one of them found it so. -/
theorem scrollHandler_marks_iff (doc : List (List String)) (k : Nat) (cl : List String)
    (hk : doc[k]? = some cl) (hm : "transform-hover" ∈ cl) (hv : "visible" ∉ cl) :
    (∀ ev : ScrollEvent, ∃ cl2, (scrollHandler ev doc)[k]? = some cl2 ∧
        ("visible" ∈ cl2 ↔
          (ev.rectOf k).top < ev.innerHeight ∧ (ev.rectOf k).bottom ≥ 0)) ∧
      (∀ evs : List ScrollEvent, ∃ cl2, (afterScrolls evs doc)[k]? = some cl2 ∧
        ("visible" ∈ cl2 ↔
          ∃ ev ∈ evs, (ev.rectOf k).top < ev.innerHeight ∧ (ev.rectOf k).bottom ≥ 0)) := by
  constructor
  · intro ev
    refine ⟨scrollElement ev k cl, ?_, ?_⟩
    · rw [scrollHandler_getElem?, hk]; rfl
    · rw [mem_scrollElement]
      constructor
      · rintro (h | h)
        · exact absurd h hv
        · exact h.2.2
      · intro h; exact Or.inr ⟨rfl, hm, h⟩
  · intro evs
    refine ⟨evs.foldl (fun a ev => scrollElement ev k a) cl, ?_, ?_⟩
    · rw [afterScrolls_getElem?, hk]; rfl
    · rw [mem_foldl_scrollElement]
      constructor
      · rintro (h | h)
        · exact absurd h hv
        · exact h.2.2
      · intro h; exact Or.inr ⟨rfl, hm, h⟩

theorem scrollHandler_marks_iff_witness :
    ∃ cl2, (scrollHandler ⟨600, fun _ => ⟨-40, 0⟩⟩ [["card"], ["transform-hover"]])[1]? =
        some cl2 ∧
      ("visible" ∈ cl2 ↔ (-40 : ℚ) < 600 ∧ (0 : ℚ) ≥ 0) :=
  (scrollHandler_marks_iff [["card"], ["transform-hover"]] 1 ["transform-hover"]
    (by rfl) (by decide) (by decide)).1 ⟨600, fun _ => ⟨-40, 0⟩⟩

/-- Claim C6.  The reveal mark is one-way: an element that carries the class
`visible` still carries it, and every other class it had, after any sequence
of scroll events, whatever bounding boxes and viewport heights they find. -/
theorem afterScrolls_keeps_visible (evs : List ScrollEvent) (doc : List (List String))
    (k : Nat) (cl : List String) (hk : doc[k]? = some cl) (hv : "visible" ∈ cl) :
    ∃ cl2, (afterScrolls evs doc)[k]? = some cl2 ∧ "visible" ∈ cl2 ∧
      ∀ c ∈ cl, c ∈ cl2 := by
  refine ⟨evs.foldl (fun a ev => scrollElement ev k a) cl, ?_, ?_, ?_⟩
  · rw [afterScrolls_getElem?, hk]; rfl
  · rw [mem_foldl_scrollElement]; exact Or.inl hv
  · intro c hc
    rw [mem_foldl_scrollElement]; exact Or.inl hc

theorem afterScrolls_keeps_visible_witness :
    ∃ cl2, (afterScrolls [⟨600, fun _ => ⟨700, 900⟩⟩, ⟨600, fun _ => ⟨-900, -700⟩⟩]
        [["transform-hover", "visible"]])[0]? = some cl2 ∧ "visible" ∈ cl2 ∧
      ∀ c ∈ ["transform-hover", "visible"], c ∈ cl2 :=
  afterScrolls_keeps_visible [⟨600, fun _ => ⟨700, 900⟩⟩, ⟨600, fun _ => ⟨-900, -700⟩⟩]
    [["transform-hover", "visible"]] 0 ["transform-hover", "visible"] (by rfl) (by decide)

/-! ## Item dismiss -/

theorem liAmong_append (a b : List SkillNode) :
    liAmong (a ++ b) = liAmong a ++ liAmong b := by
  induction a with
  | nil => simp [liAmong]
  | cons n rest ih => simp [liAmong, ih]

mutual
theorem clickAmong_eq_none (target : Nat) :
    ∀ f : List SkillNode, target ∉ idsAmong f → clickAmong target f = none
  | [], _ => by simp [clickAmong]
  | n :: rest, h => by
    simp only [idsAmong, List.mem_append, not_or] at h
    simp [clickAmong, clickAt_eq_none target n h.1, clickAmong_eq_none target rest h.2]
theorem clickAt_eq_none (target : Nat) :
    ∀ n : SkillNode, target ∉ idsAt n → clickAt target n = none
  | SkillNode.text _, _ => by simp [clickAt]
  | SkillNode.element id ln b kids, h => by
    simp only [idsAt, List.mem_cons, not_or] at h
    have hne : ¬ id = target := fun e => h.1 e.symm
    simp [clickAt, hne, clickAmong_eq_none target kids h.2]
end

mutual
theorem clickAmong_isSome (target : Nat) :
    ∀ f : List SkillNode, target ∈ idsAmong f → (clickAmong target f).isSome = true
  | [], h => by simp [idsAmong] at h
  | n :: rest, h => by
    simp only [idsAmong, List.mem_append] at h
    unfold clickAmong
    cases e : clickAt target n with
    | some left => simp
    | none =>
      rcases h with h | h
      · have := clickAt_isSome target n h
        rw [e] at this
        simp at this
      · have := clickAmong_isSome target rest h
        cases e2 : clickAmong target rest with
        | some r => simp
        | none => rw [e2] at this; simp at this
theorem clickAt_isSome (target : Nat) :
    ∀ n : SkillNode, target ∈ idsAt n → (clickAt target n).isSome = true
  | SkillNode.text _, h => by simp [idsAt] at h
  | SkillNode.element id ln b kids, h => by
    simp only [idsAt, List.mem_cons] at h
    unfold clickAt
    by_cases hid : id = target
    · rw [if_pos hid]
      cases b <;> simp
    · rw [if_neg hid]
      have h2 : target ∈ idsAmong kids := by
        rcases h with h | h
        · exact absurd h.symm hid
        · exact h
      have := clickAmong_isSome target kids h2
      cases e2 : clickAmong target kids with
      | some r => cases b <;> simp
      | none => rw [e2] at this; simp at this
end

mutual
theorem ids_of_mem_liAmong (e : SkillNode) :
    ∀ f : List SkillNode, e ∈ liAmong f → ∀ x ∈ idsAt e, x ∈ idsAmong f
  | [], h => by simp [liAmong] at h
  | n :: rest, h => by
    intro x hx
    simp only [liAmong, List.mem_append] at h
    simp only [idsAmong, List.mem_append]
    rcases h with h | h
    · exact Or.inl (ids_of_mem_liAt e n h x hx)
    · exact Or.inr (ids_of_mem_liAmong e rest h x hx)
theorem ids_of_mem_liAt (e : SkillNode) :
    ∀ n : SkillNode, e ∈ liAt n → ∀ x ∈ idsAt e, x ∈ idsAt n
  | SkillNode.text _, h => by simp [liAt] at h
  | SkillNode.element id ln b kids, h => by
    intro x hx
    unfold liAt at h
    by_cases hl : ln = "li"
    · rw [if_pos hl] at h
      rcases List.mem_cons.1 h with h | h
      · rw [h] at hx; exact hx
      · simp only [idsAt, List.mem_cons]
        exact Or.inr (ids_of_mem_liAmong e kids h x hx)
    · rw [if_neg hl] at h
      simp only [idsAt, List.mem_cons]
      exact Or.inr (ids_of_mem_liAmong e kids h x hx)
end

mutual
theorem clickAmong_erases (target id : Nat) (sub : List SkillNode) :
    ∀ (f : List SkillNode) (i : Nat), (idsAmong f).Nodup → flatAmong f = true →
      onlyLiBoundAmong f = true →
      (liAmong f)[i]? = some (SkillNode.element id "li" true sub) →
      target ∈ idsAt (SkillNode.element id "li" true sub) →
      ∃ f2, clickAmong target f = some f2 ∧ liAmong f2 = (liAmong f).eraseIdx i
  | [], i, _, _, _, he, _ => by simp [liAmong] at he
  | n :: rest, i, hn, hf, ho, he, ht => by
    simp only [idsAmong, List.nodup_append] at hn
    simp only [flatAmong, Bool.and_eq_true] at hf
    simp only [onlyLiBoundAmong, Bool.and_eq_true] at ho
    simp only [liAmong] at he ⊢
    by_cases hi : i < (liAt n).length
    · rw [List.getElem?_append_left hi] at he
      obtain ⟨r, hr1, hr2⟩ := clickAt_erases target id sub n i hn.1 hf.1 ho.1 he ht
      refine ⟨r ++ rest, ?_, ?_⟩
      · simp [clickAmong, hr1]
      · rw [liAmong_append, hr2, List.eraseIdx_append_of_lt_length hi]
    · have hi2 : (liAt n).length ≤ i := Nat.le_of_not_lt hi
      rw [List.getElem?_append_right hi2] at he
      have hmem : SkillNode.element id "li" true sub ∈ liAmong rest :=
        List.getElem?_mem he
      have htr : target ∈ idsAmong rest := ids_of_mem_liAmong _ rest hmem target ht
      have htn : target ∉ idsAt n := fun hx => hn.2.2 hx htr
      obtain ⟨r, hr1, hr2⟩ :=
        clickAmong_erases target id sub rest (i - (liAt n).length) hn.2.1 hf.2 ho.2 he ht
      refine ⟨n :: r, ?_, ?_⟩
      · simp [clickAmong, clickAt_eq_none target n htn, hr1]
      · simp only [liAmong]
        rw [hr2, List.eraseIdx_append_of_length_le hi2]
theorem clickAt_erases (target id : Nat) (sub : List SkillNode) :
    ∀ (n : SkillNode) (i : Nat), (idsAt n).Nodup → flatAt n = true →
      onlyLiBoundAt n = true →
      (liAt n)[i]? = some (SkillNode.element id "li" true sub) →
      target ∈ idsAt (SkillNode.element id "li" true sub) →
      ∃ r, clickAt target n = some r ∧ liAmong r = (liAt n).eraseIdx i
  | SkillNode.text _, i, _, _, _, he, _ => by simp [liAt] at he
  | SkillNode.element nid ln b kids, i, hn, hf, ho, he, ht => by
    simp only [idsAt, List.nodup_cons] at hn
    simp only [flatAt, Bool.and_eq_true] at hf
    simp only [onlyLiBoundAt, Bool.and_eq_true] at ho
    by_cases hl : ln = "li"
    · subst hl
      have hk : liAmong kids = [] := by
        have := hf.1
        simpa using this
      have hli : liAt (SkillNode.element nid "li" b kids) =
          [SkillNode.element nid "li" b kids] := by
        simp [liAt, hk]
      rw [hli] at he ⊢
      cases i with
      | succ j => simp at he
      | zero =>
        simp only [List.getElem?_cons_zero, Option.some.injEq, SkillNode.element.injEq] at he
        obtain ⟨h1, -, h3, h4⟩ := he
        subst h1; subst h3; subst h4
        refine ⟨[], ?_, by simp [liAmong]⟩
        unfold clickAt
        by_cases hid : nid = target
        · simp [hid]
        · rw [if_neg hid]
          have h2 : target ∈ idsAmong kids := by
            simp only [idsAt, List.mem_cons] at ht
            rcases ht with h | h
            · exact absurd h.symm hid
            · exact h
          have := clickAmong_isSome target kids h2
          cases e2 : clickAmong target kids with
          | some r => simp
          | none => rw [e2] at this; simp at this
    · have hli : liAt (SkillNode.element nid ln b kids) = liAmong kids := by
        simp [liAt, hl]
      rw [hli] at he ⊢
      have hb : b = false := by
        cases b
        · rfl
        · have := ho.1
          simp [hl] at this
      subst hb
      have hmem : SkillNode.element id "li" true sub ∈ liAmong kids :=
        List.getElem?_mem he
      have htk : target ∈ idsAmong kids := ids_of_mem_liAmong _ kids hmem target ht
      have hid : ¬ nid = target := fun e => hn.1 (e ▸ htk)
      obtain ⟨r, hr1, hr2⟩ := clickAmong_erases target id sub kids i hn.2 hf.2 ho.2 he ht
      refine ⟨[SkillNode.element nid ln false r], ?_, ?_⟩
      · simp [clickAt, hid, hr1]
      · simp [liAmong, liAt, hl, hr2]
end

theorem idsAmong_append (a b : List SkillNode) :
    idsAmong (a ++ b) = idsAmong a ++ idsAmong b := by
  induction a with
  | nil => simp [idsAmong]
  | cons n rest ih => simp [idsAmong, ih]

theorem flatAmong_append (a b : List SkillNode) :
    flatAmong (a ++ b) = (flatAmong a && flatAmong b) := by
  induction a with
  | nil => simp [flatAmong]
  | cons n rest ih => simp [flatAmong, ih, Bool.and_assoc]

theorem onlyLiBoundAmong_append (a b : List SkillNode) :
    onlyLiBoundAmong (a ++ b) = (onlyLiBoundAmong a && onlyLiBoundAmong b) := by
  induction a with
  | nil => simp [onlyLiBoundAmong]
  | cons n rest ih => simp [onlyLiBoundAmong, ih, Bool.and_assoc]

theorem allLiBoundAmong_append (a b : List SkillNode) :
    allLiBoundAmong (a ++ b) = (allLiBoundAmong a && allLiBoundAmong b) := by
  induction a with
  | nil => simp [allLiBoundAmong]
  | cons n rest ih => simp [allLiBoundAmong, ih, Bool.and_assoc]

mutual
theorem clickAmong_shrinks (target : Nat) :
    ∀ (f f2 : List SkillNode), clickAmong target f = some f2 →
      (idsAmong f2).Sublist (idsAmong f) ∧ (liAmong f2).length ≤ (liAmong f).length
  | [], f2, h => by simp [clickAmong] at h
  | n :: rest, f2, h => by
    unfold clickAmong at h
    cases e : clickAt target n with
    | some left =>
      rw [e] at h
      simp only [Option.some.injEq] at h
      subst h
      obtain ⟨h1, h2⟩ := clickAt_shrinks target n left e
      rw [idsAmong_append, liAmong_append]
      simp only [idsAmong, liAmong, List.length_append]
      exact ⟨List.Sublist.append h1 (List.Sublist.refl _), by omega⟩
    | none =>
      rw [e] at h
      cases e2 : clickAmong target rest with
      | none => rw [e2] at h; simp at h
      | some r =>
        rw [e2] at h
        simp only [Option.some.injEq] at h
        subst h
        obtain ⟨h1, h2⟩ := clickAmong_shrinks target rest r e2
        simp only [idsAmong, liAmong, List.length_append]
        exact ⟨List.Sublist.append (List.Sublist.refl _) h1, by omega⟩
theorem clickAt_shrinks (target : Nat) :
    ∀ (n : SkillNode) (r : List SkillNode), clickAt target n = some r →
      (idsAmong r).Sublist (idsAt n) ∧ (liAmong r).length ≤ (liAt n).length
  | SkillNode.text _, r, h => by simp [clickAt] at h
  | SkillNode.element id ln b kids, r, h => by
    unfold clickAt at h
    by_cases hid : id = target
    · rw [if_pos hid] at h
      cases b
      · simp only [Bool.false_eq_true, if_false, Option.some.injEq] at h
        subst h
        simp [idsAmong, liAmong]
      · simp only [if_true, Option.some.injEq] at h
        subst h
        simp [idsAmong, liAmong]
    · rw [if_neg hid] at h
      cases e2 : clickAmong target kids with
      | none => rw [e2] at h; simp at h
      | some k2 =>
        rw [e2] at h
        obtain ⟨h1, h2⟩ := clickAmong_shrinks target kids k2 e2
        cases b
        · simp only [Bool.false_eq_true, if_false, Option.some.injEq] at h
          subst h
          simp only [idsAmong, idsAt, liAmong, liAt, List.append_nil]
          refine ⟨List.Sublist.cons₂ _ h1, ?_⟩
          by_cases hl : ln = "li"
          · simp only [hl, if_true, List.length_cons]; omega
          · simp only [hl, if_false]; exact h2
        · simp only [if_true, Option.some.injEq] at h
          subst h
          simp [idsAmong, liAmong]
end

mutual
theorem clickAmong_keeps (target : Nat) :
    ∀ (f f2 : List SkillNode), clickAmong target f = some f2 →
      (flatAmong f = true → flatAmong f2 = true) ∧
      (onlyLiBoundAmong f = true → onlyLiBoundAmong f2 = true) ∧
      (allLiBoundAmong f = true → allLiBoundAmong f2 = true)
  | [], f2, h => by simp [clickAmong] at h
  | n :: rest, f2, h => by
    unfold clickAmong at h
    cases e : clickAt target n with
    | some left =>
      rw [e] at h
      simp only [Option.some.injEq] at h
      subst h
      obtain ⟨h1, h2, h3⟩ := clickAt_keeps target n left e
      rw [flatAmong_append, onlyLiBoundAmong_append, allLiBoundAmong_append]
      simp only [flatAmong, onlyLiBoundAmong, allLiBoundAmong, Bool.and_eq_true]
      exact ⟨fun h => ⟨h1 h.1, h.2⟩, fun h => ⟨h2 h.1, h.2⟩, fun h => ⟨h3 h.1, h.2⟩⟩
    | none =>
      rw [e] at h
      cases e2 : clickAmong target rest with
      | none => rw [e2] at h; simp at h
      | some r =>
        rw [e2] at h
        simp only [Option.some.injEq] at h
        subst h
        obtain ⟨h1, h2, h3⟩ := clickAmong_keeps target rest r e2
        simp only [flatAmong, onlyLiBoundAmong, allLiBoundAmong, Bool.and_eq_true]
        exact ⟨fun h => ⟨h.1, h1 h.2⟩, fun h => ⟨h.1, h2 h.2⟩, fun h => ⟨h.1, h3 h.2⟩⟩
theorem clickAt_keeps (target : Nat) :
    ∀ (n : SkillNode) (r : List SkillNode), clickAt target n = some r →
      (flatAt n = true → flatAmong r = true) ∧
      (onlyLiBoundAt n = true → onlyLiBoundAmong r = true) ∧
      (allLiBoundAt n = true → allLiBoundAmong r = true)
  | SkillNode.text _, r, h => by simp [clickAt] at h
  | SkillNode.element id ln b kids, r, h => by
    unfold clickAt at h
    by_cases hid : id = target
    · rw [if_pos hid] at h
      cases b
      · simp only [Bool.false_eq_true, if_false, Option.some.injEq] at h
        subst h
        simp [flatAmong, onlyLiBoundAmong, allLiBoundAmong]
      · simp only [if_true, Option.some.injEq] at h
        subst h
        simp [flatAmong, onlyLiBoundAmong, allLiBoundAmong]
    · rw [if_neg hid] at h
      cases e2 : clickAmong target kids with
      | none => rw [e2] at h; simp at h
      | some k2 =>
        rw [e2] at h
        obtain ⟨h1, h2, h3⟩ := clickAmong_keeps target kids k2 e2
        have hs := (clickAmong_shrinks target kids k2 e2).2
        cases b
        · simp only [Bool.false_eq_true, if_false, Option.some.injEq] at h
          subst h
          simp only [flatAmong, flatAt, onlyLiBoundAmong, onlyLiBoundAt, allLiBoundAmong,
            allLiBoundAt, Bool.and_true, Bool.and_eq_true]
          refine ⟨fun h => ⟨?_, h1 h.2⟩, fun h => ⟨h.1, h2 h.2⟩, fun h => ⟨h.1, h3 h.2⟩⟩
          by_cases hl : ln = "li"
          · have hk := h.1
            simp only [hl, if_true, List.isEmpty_iff] at hk ⊢
            rw [hk] at hs
            exact List.length_eq_zero.1 (Nat.le_zero.1 hs)
          · simp [hl]
        · simp only [if_true, Option.some.injEq] at h
          subst h
          simp [flatAmong, onlyLiBoundAmong, allLiBoundAmong]
end

mutual
theorem idsAmong_bindAmong : ∀ f : List SkillNode, idsAmong (bindAmong f) = idsAmong f
  | [] => by simp [bindAmong, idsAmong]
  | n :: rest => by
    simp [bindAmong, idsAmong, idsAt_bindAt n, idsAmong_bindAmong rest]
theorem idsAt_bindAt : ∀ n : SkillNode, idsAt (bindAt n) = idsAt n
  | SkillNode.text _ => by simp [bindAt, idsAt]
  | SkillNode.element id ln b kids => by
    simp [bindAt, idsAt, idsAmong_bindAmong kids]
end

mutual
theorem liAmong_bindAmong_length :
    ∀ f : List SkillNode, (liAmong (bindAmong f)).length = (liAmong f).length
  | [] => by simp [bindAmong, liAmong]
  | n :: rest => by
    simp [bindAmong, liAmong, liAt_bindAt_length n, liAmong_bindAmong_length rest]
theorem liAt_bindAt_length : ∀ n : SkillNode, (liAt (bindAt n)).length = (liAt n).length
  | SkillNode.text _ => by simp [bindAt, liAt]
  | SkillNode.element id ln b kids => by
    by_cases hl : ln = "li"
    · simp [bindAt, liAt, hl, liAmong_bindAmong_length kids]
    · simp [bindAt, liAt, hl, liAmong_bindAmong_length kids]
end

mutual
theorem bindAmong_bound :
    ∀ f : List SkillNode,
      onlyLiBoundAmong (bindAmong f) = true ∧ allLiBoundAmong (bindAmong f) = true ∧
        flatAmong (bindAmong f) = flatAmong f
  | [] => by simp [bindAmong, onlyLiBoundAmong, allLiBoundAmong, flatAmong]
  | n :: rest => by
    obtain ⟨h1, h2, h3⟩ := bindAt_bound n
    obtain ⟨h4, h5, h6⟩ := bindAmong_bound rest
    simp [bindAmong, onlyLiBoundAmong, allLiBoundAmong, flatAmong, h1, h2, h3, h4, h5, h6]
theorem bindAt_bound :
    ∀ n : SkillNode,
      onlyLiBoundAt (bindAt n) = true ∧ allLiBoundAt (bindAt n) = true ∧
        flatAt (bindAt n) = flatAt n
  | SkillNode.text _ => by simp [bindAt, onlyLiBoundAt, allLiBoundAt, flatAt]
  | SkillNode.element id ln b kids => by
    obtain ⟨h4, h5, h6⟩ := bindAmong_bound kids
    have hlen := liAmong_bindAmong_length kids
    have hemp : (liAmong (bindAmong kids)).isEmpty = (liAmong kids).isEmpty := by
      cases h : liAmong kids with
      | nil =>
        rw [h] at hlen
        rw [List.length_eq_zero.1 hlen]
      | cons a t =>
        rw [h] at hlen
        cases h2 : liAmong (bindAmong kids) with
        | nil => rw [h2] at hlen; simp at hlen
        | cons a2 t2 => rfl
    by_cases hl : ln = "li"
    · simp [bindAt, onlyLiBoundAt, allLiBoundAt, flatAt, hl, h4, h5, h6, hemp]
    · simp [bindAt, onlyLiBoundAt, allLiBoundAt, flatAt, hl, h4, h5, h6]
end

/-- Claim C7 as stated fails.  In the list `Web [CSS], Go`, where the entry CSS
lies inside the entry Web, a click on CSS also runs the handler of Web, so of
the three entries only Go is left, not Web and Go. -/
theorem skillClick_nested_counterexample :
    (liAmong (skillsReady
        [SkillNode.element 1 "li" false [SkillNode.text "Web",
          SkillNode.element 2 "ul" false
            [SkillNode.element 3 "li" false [SkillNode.text "CSS"]]],
         SkillNode.element 4 "li" false [SkillNode.text "Go"]]))[1]? =
      some (SkillNode.element 3 "li" true [SkillNode.text "CSS"]) ∧
    (liAmong (skillsReady
        [SkillNode.element 1 "li" false [SkillNode.text "Web",
          SkillNode.element 2 "ul" false
            [SkillNode.element 3 "li" false [SkillNode.text "CSS"]]],
         SkillNode.element 4 "li" false [SkillNode.text "Go"]])).length = 3 ∧
    idsAmong (skillClick 3 (skillsReady
        [SkillNode.element 1 "li" false [SkillNode.text "Web",
          SkillNode.element 2 "ul" false
            [SkillNode.element 3 "li" false [SkillNode.text "CSS"]]],
         SkillNode.element 4 "li" false [SkillNode.text "Go"]])) = [4] ∧
    liAmong (skillClick 3 (skillsReady
        [SkillNode.element 1 "li" false [SkillNode.text "Web",
          SkillNode.element 2 "ul" false
            [SkillNode.element 3 "li" false [SkillNode.text "CSS"]]],
         SkillNode.element 4 "li" false [SkillNode.text "Go"]])) ≠
      (liAmong (skillsReady
        [SkillNode.element 1 "li" false [SkillNode.text "Web",
          SkillNode.element 2 "ul" false
            [SkillNode.element 3 "li" false [SkillNode.text "CSS"]]],
         SkillNode.element 4 "li" false [SkillNode.text "Go"]])).eraseIdx 1 := by
  refine ⟨by rfl, by decide, by decide, ?_⟩
  intro h
  exact absurd (congrArg List.length h) (by decide)

/-- Claim C7 as amended.  In a skills list of distinct nodes in which no entry
lies inside another and only entries carry the handler, as line 50 leaves it,
a click on an entry that carries the handler, or on anything inside that
entry, with the fade-out run to completion, removes exactly that entry: the
entries afterwards are the entries before with the clicked one erased, each
other entry in its old order and with its old content.  The list afterwards
is again such a list, so the same holds for every later click; and line 50
makes every start-up list such a list, with every entry carrying the
handler. -/
theorem skillClick_removes_exactly (kids : List SkillNode) (i id target : Nat)
    (sub : List SkillNode)
    (hn : (idsAmong kids).Nodup) (hf : flatAmong kids = true)
    (ho : onlyLiBoundAmong kids = true)
    (he : (liAmong kids)[i]? = some (SkillNode.element id "li" true sub))
    (ht : target ∈ idsAt (SkillNode.element id "li" true sub)) :
    liAmong (skillClick target kids) = (liAmong kids).eraseIdx i ∧
      (liAmong (skillClick target kids)).length + 1 = (liAmong kids).length ∧
      ((idsAmong (skillClick target kids)).Nodup ∧
        flatAmong (skillClick target kids) = true ∧
        onlyLiBoundAmong (skillClick target kids) = true ∧
        (allLiBoundAmong kids = true → allLiBoundAmong (skillClick target kids) = true)) ∧
      (∀ page : List SkillNode,
        idsAmong (skillsReady page) = idsAmong page ∧
        flatAmong (skillsReady page) = flatAmong page ∧
        onlyLiBoundAmong (skillsReady page) = true ∧
        allLiBoundAmong (skillsReady page) = true) := by
  obtain ⟨f2, h1, h2⟩ := clickAmong_erases target id sub kids i hn hf ho he ht
  have hs : skillClick target kids = f2 := by
    unfold skillClick
    rw [h1]
  have hi : i < (liAmong kids).length := by
    rcases List.getElem?_eq_some.1 he with ⟨h, -⟩
    exact h
  obtain ⟨k1, k2, k3⟩ := clickAmong_keeps target kids f2 h1
  rw [hs]
  refine ⟨h2, ?_, ⟨?_, k1 hf, k2 ho, k3⟩, ?_⟩
  · rw [h2, List.length_eraseIdx, if_pos hi]
    omega
  · exact List.Nodup.sublist (clickAmong_shrinks target kids f2 h1).1 hn
  · intro page
    obtain ⟨b1, b2, b3⟩ := bindAmong_bound page
    exact ⟨idsAmong_bindAmong page, b3, b1, b2⟩

theorem skillClick_removes_exactly_witness :
    liAmong (skillClick 8 (skillsReady
        [SkillNode.element 7 "li" false [SkillNode.text "HTML"],
         SkillNode.element 8 "li" false [SkillNode.text "CSS"],
         SkillNode.element 9 "li" false [SkillNode.text "JavaScript"]])) =
      (liAmong (skillsReady
        [SkillNode.element 7 "li" false [SkillNode.text "HTML"],
         SkillNode.element 8 "li" false [SkillNode.text "CSS"],
         SkillNode.element 9 "li" false [SkillNode.text "JavaScript"]])).eraseIdx 1 :=
  (skillClick_removes_exactly
    (skillsReady
        [SkillNode.element 7 "li" false [SkillNode.text "HTML"],
         SkillNode.element 8 "li" false [SkillNode.text "CSS"],
         SkillNode.element 9 "li" false [SkillNode.text "JavaScript"]])
    1 8 8 [SkillNode.text "CSS"]
    (by decide) (by decide) (by decide) (by rfl) (by decide)).1

/-! ## Section collapse -/

theorem afterBioClicks_induct (P : BioSection → Prop)
    (hstep : ∀ s, P s → P (bioTitleClick s)) :
    ∀ (n : Nat) (s : BioSection), P s → P (afterBioClicks n s)
  | 0, _, h => h
  | n + 1, s, h => afterBioClicks_induct P hstep n (bioTitleClick s) (hstep s h)

theorem afterBioClicks_succ :
    ∀ (n : Nat) (s : BioSection),
      afterBioClicks (n + 1) s = bioTitleClick (afterBioClicks n s)
  | 0, _ => rfl
  | n + 1, s => by
    show afterBioClicks (n + 1) (bioTitleClick s) = _
    rw [afterBioClicks_succ n (bioTitleClick s)]
    rfl

theorem afterBioClicks_reachable (s0 : BioSection) (n : Nat) :
    ∃ pre,
      ((afterBioClicks n (bioReady s0)).titleIcons = pre ++ [["bi", "bi-chevron-down"]] ∧
        (afterBioClicks n (bioReady s0)).contentHidden = s0.contentHidden) ∨
      ((afterBioClicks n (bioReady s0)).titleIcons = pre ++ [["bi", "bi-chevron-up"]] ∧
        (afterBioClicks n (bioReady s0)).contentHidden = !s0.contentHidden) := by
  apply afterBioClicks_induct
    (fun s => ∃ pre,
      (s.titleIcons = pre ++ [["bi", "bi-chevron-down"]] ∧
        s.contentHidden = s0.contentHidden) ∨
      (s.titleIcons = pre ++ [["bi", "bi-chevron-up"]] ∧
        s.contentHidden = !s0.contentHidden))
  · rintro s ⟨pre, h | h⟩
    · refine ⟨pre.map (jqToggleClass ["bi-chevron-down", "bi-chevron-up"]), Or.inr ?_⟩
      constructor
      · show s.titleIcons.map _ = _
        rw [h.1, List.map_append]
        rfl
      · show (!s.contentHidden) = _
        rw [h.2]
    · refine ⟨pre.map (jqToggleClass ["bi-chevron-down", "bi-chevron-up"]), Or.inl ?_⟩
      constructor
      · show s.titleIcons.map _ = _
        rw [h.1, List.map_append]
        rfl
      · show (!s.contentHidden) = _
        rw [h.2, Bool.not_not]
  · exact ⟨s0.titleIcons, Or.inl ⟨rfl, rfl⟩⟩

theorem chevron_concat (s : BioSection) (pre : List (List String)) (c : List String)
    (h : s.titleIcons = pre ++ [c]) : s.chevron = some c := by
  unfold BioSection.chevron
  rw [h]
  simp

/-- Claim C8.  In every state of the bio section reached by clicks after start-up,
two more clicks on the header, each slide run to completion, bring back the
collapse state of the content block and the class list of the chevron, hence
its direction classes. -/
theorem bioTitleClick_twice (s0 : BioSection) (n : Nat) :
    (bioTitleClick (bioTitleClick (afterBioClicks n (bioReady s0)))).contentHidden =
        (afterBioClicks n (bioReady s0)).contentHidden ∧
      (bioTitleClick (bioTitleClick (afterBioClicks n (bioReady s0)))).chevron =
        (afterBioClicks n (bioReady s0)).chevron ∧
      (afterBioClicks n (bioReady s0)).chevron.isSome = true ∧
      (∀ name,
        (bioTitleClick (bioTitleClick (afterBioClicks n (bioReady s0)))).chevronHas name =
          (afterBioClicks n (bioReady s0)).chevronHas name) := by
  obtain ⟨pre, h | h⟩ := afterBioClicks_reachable s0 n
  · have h1 := chevron_concat _ pre _ h.1
    have h2 : (bioTitleClick (bioTitleClick (afterBioClicks n (bioReady s0)))).chevron =
        some ["bi", "bi-chevron-down"] := by
      apply chevron_concat _
        ((pre.map (jqToggleClass ["bi-chevron-down", "bi-chevron-up"])).map
          (jqToggleClass ["bi-chevron-down", "bi-chevron-up"]))
      simp only [bioTitleClick, h.1, List.map_append, List.map_cons, List.map_nil]
      rfl
    refine ⟨by simp [bioTitleClick], by rw [h1, h2], by rw [h1]; rfl, fun name => ?_⟩
    unfold BioSection.chevronHas
    rw [h1, h2]
  · have h1 := chevron_concat _ pre _ h.1
    have h2 : (bioTitleClick (bioTitleClick (afterBioClicks n (bioReady s0)))).chevron =
        some ["bi", "bi-chevron-up"] := by
      apply chevron_concat _
        ((pre.map (jqToggleClass ["bi-chevron-down", "bi-chevron-up"])).map
          (jqToggleClass ["bi-chevron-down", "bi-chevron-up"]))
      simp only [bioTitleClick, h.1, List.map_append, List.map_cons, List.map_nil]
      rfl
    refine ⟨by simp [bioTitleClick], by rw [h1, h2], by rw [h1]; rfl, fun name => ?_⟩
    unfold BioSection.chevronHas
    rw [h1, h2]

theorem bioTitleClick_twice_witness :
    (bioTitleClick (bioTitleClick (afterBioClicks 1 (bioReady ⟨false, [["bi"]]⟩)))).chevron =
      (afterBioClicks 1 (bioReady ⟨false, [["bi"]]⟩)).chevron :=
  (bioTitleClick_twice ⟨false, [["bi"]]⟩ 1).2.1

/-- Claim C9 as stated fails.  With the content block shown at start-up, the first
click collapses the block and leaves the chevron up, not down. -/
theorem bioTitleClick_chevron_counterexample :
    (bioReady ⟨false, []⟩).chevron = some ["bi", "bi-chevron-down"] ∧
    (afterBioClicks 1 (bioReady ⟨false, []⟩)).contentHidden = true ∧
    (afterBioClicks 1 (bioReady ⟨false, []⟩)).chevronHas "bi-chevron-down" = false ∧
    (afterBioClicks 1 (bioReady ⟨false, []⟩)).chevronHas "bi-chevron-up" = true := by
  decide

/-- Claim C9 as amended.  After any number of clicks from start-up, the chevron is
down exactly when the content block is in the collapse state it had at
start-up, and up exactly when it is in the other one: down when collapsed and
up when expanded if the block was collapsed at start-up, down when expanded
and up when collapsed if it was shown. -/
theorem bioTitleClick_chevron_follows_startup (s0 : BioSection) (n : Nat) :
    ((afterBioClicks n (bioReady s0)).chevronHas "bi-chevron-down" = true ↔
        (afterBioClicks n (bioReady s0)).contentHidden = s0.contentHidden) ∧
      ((afterBioClicks n (bioReady s0)).chevronHas "bi-chevron-up" = true ↔
        (afterBioClicks n (bioReady s0)).contentHidden = !s0.contentHidden) ∧
      (afterBioClicks (n + 1) (bioReady s0)).contentHidden =
        !(afterBioClicks n (bioReady s0)).contentHidden := by
  refine ⟨?_, ?_, ?_⟩
  · obtain ⟨pre, h | h⟩ := afterBioClicks_reachable s0 n
    · have h1 := chevron_concat _ pre _ h.1
      unfold BioSection.chevronHas
      rw [h1, h.2]
      exact ⟨fun _ => rfl, fun _ => by decide⟩
    · have h1 := chevron_concat _ pre _ h.1
      unfold BioSection.chevronHas
      rw [h1, h.2]
      constructor
      · intro e; exact absurd e (by decide)
      · intro e; cases hh : s0.contentHidden <;> rw [hh] at e <;> exact absurd e (by decide)
  · obtain ⟨pre, h | h⟩ := afterBioClicks_reachable s0 n
    · have h1 := chevron_concat _ pre _ h.1
      unfold BioSection.chevronHas
      rw [h1, h.2]
      constructor
      · intro e; exact absurd e (by decide)
      · intro e; cases hh : s0.contentHidden <;> rw [hh] at e <;> exact absurd e (by decide)
    · have h1 := chevron_concat _ pre _ h.1
      unfold BioSection.chevronHas
      rw [h1, h.2]
      exact ⟨fun _ => rfl, fun _ => by decide⟩
  · rw [afterBioClicks_succ]
    rfl

theorem bioTitleClick_chevron_follows_startup_witness :
    ((afterBioClicks 3 (bioReady ⟨true, []⟩)).chevronHas "bi-chevron-down" = true ↔
      (afterBioClicks 3 (bioReady ⟨true, []⟩)).contentHidden = true) ∧
    ((afterBioClicks 3 (bioReady ⟨false, []⟩)).chevronHas "bi-chevron-down" = true ↔
      (afterBioClicks 3 (bioReady ⟨false, []⟩)).contentHidden = false) :=
  ⟨(bioTitleClick_chevron_follows_startup ⟨true, []⟩ 3).1,
   (bioTitleClick_chevron_follows_startup ⟨false, []⟩ 3).1⟩

end Homepage
